import Mathlib

/-
Verification development for the writhe computation core of `writhe_tools`
(files `writhe_utils.py` and `utils.py`): the geometric kernel
(`writhe_smat`), the segment-pair enumerator (`get_segments`), the memory
cost model and batch planner (`peak_mem_writhe`, `get_available_memory`,
`get_segment_batch_size`), and the dispatch pipeline
(`writhe_segments_cuda`, `writhe_segments_minibatches`,
`calc_writhe_parallel_cuda`).

Floating-point tensor arithmetic is modelled over the real numbers
(exact rationals for the planner arithmetic); tensor shapes are modelled
explicitly where the code's `squeeze` / `cat` calls make them significant.
-/

namespace WritheTools

/-! ## 3-vectors and the elementary tensor ops

The helpers `ndot`, `ncross`, `nnorm` are imported by `writhe_utils.py`
from `writhe_nn.py`, which is not part of the sources at hand; they are
modelled from the spec's kernel description: dot product, cross product,
and normalization of a vector to unit length. -/

structure Vec3 where
  x : ℝ
  y : ℝ
  z : ℝ

instance : Inhabited Vec3 := ⟨⟨0, 0, 0⟩⟩

noncomputable def vsub (u v : Vec3) : Vec3 := ⟨u.x - v.x, u.y - v.y, u.z - v.z⟩

noncomputable instance : Sub Vec3 := ⟨vsub⟩

/-- Modelled from the spec: dot product of two 3-vectors (`ndot` of
`writhe_nn.py`, absent from the sources). -/
noncomputable def ndot (u v : Vec3) : ℝ := u.x * v.x + u.y * v.y + u.z * v.z

/-- Modelled from the spec: cross product of two 3-vectors (`ncross` of
`writhe_nn.py`, absent from the sources). -/
noncomputable def ncross (u v : Vec3) : Vec3 :=
  ⟨u.y * v.z - u.z * v.y, u.z * v.x - u.x * v.z, u.x * v.y - u.y * v.x⟩

noncomputable def norm3 (v : Vec3) : ℝ := Real.sqrt (v.x ^ 2 + v.y ^ 2 + v.z ^ 2)

/-- Modelled from the spec: normalize a 3-vector to unit length (`nnorm` of
`writhe_nn.py`, absent from the sources): divide the vector by its
Euclidean norm. -/
noncomputable def nnorm (v : Vec3) : Vec3 :=
  ⟨v.x / norm3 v, v.y / norm3 v, v.z / norm3 v⟩

/-- `torch.clip(x, -1, 1)`: clamp to the interval `[-1, 1]`. -/
noncomputable def clip (r : ℝ) : ℝ := min (max r (-1)) 1

/-! ## The geometric kernel `writhe_smat`

`smat` has shape `(Nframes, Nsegments, 4, 3)`: per frame and per segment
pair, the four points `xyz[s1], xyz[e1], xyz[s2], xyz[e2]`, i.e. the two
endpoints `a0, a1` of segment A followed by the two endpoints `b0, b1` of
segment B.  All kernel tensor operations act elementwise over the leading
`(Nframes, Nsegments)` axes, so the kernel is embedded as a per-element
function mapped over a nested list (frames × pairs). -/

structure SegPoints where
  a0 : Vec3
  a1 : Vec3
  b0 : Vec3
  b1 : Vec3

/-- Per-frame, per-pair body of `writhe_smat` (writhe_utils.py lines 89-109),
mirroring the order of the code's tensor operations:

* `displacements = nnorm((-smat[:, :, :2, None, :] + smat[:, :, None, 2:, :]).reshape(-1, P, 4, 3))`
  — the broadcasted difference has the `(2, 2)` block `[[b0-a0, b1-a0], [b0-a1, b1-a1]]`,
  so the row-major reshape lists `d0 = b0-a0, d1 = b1-a0, d2 = b0-a1, d3 = b1-a1`;
* `signs = sign(ndot(ncross(smat[:,:,3]-smat[:,:,2], smat[:,:,1]-smat[:,:,0]), displacements[:,:,0]))`;
* `crosses = nnorm(ncross(displacements[:, :, [0, 1, 3, 2]], displacements[:, :, [1, 3, 2, 0]]))`;
* `omega = arcsin(ndot(crosses[:, :, [0, 1, 2, 3]], crosses[:, :, [1, 2, 3, 0]]).clip(-1, 1)).sum(2)`;
* return `(omega * signs) / (2 * pi)` (the final `squeeze` is applied at the
  matrix level, see `writhe_smat`). -/
noncomputable def writheSmatElem (s : SegPoints) : ℝ :=
  let d0 := nnorm (s.b0 - s.a0)
  let d1 := nnorm (s.b1 - s.a0)
  let d2 := nnorm (s.b0 - s.a1)
  let d3 := nnorm (s.b1 - s.a1)
  let signs := Real.sign (ndot (ncross (s.b1 - s.b0) (s.a1 - s.a0)) d0)
  let cr0 := nnorm (ncross d0 d1)
  let cr1 := nnorm (ncross d1 d3)
  let cr2 := nnorm (ncross d3 d2)
  let cr3 := nnorm (ncross d2 d0)
  let omega := Real.arcsin (clip (ndot cr0 cr1)) + Real.arcsin (clip (ndot cr1 cr2)) +
      Real.arcsin (clip (ndot cr2 cr3)) + Real.arcsin (clip (ndot cr3 cr0))
  omega * signs / (2 * Real.pi)

/-- Reference five-step single-pair, single-sample writhe contribution,
written from the spec's own algorithm description (spec §4.2):

1. normalize the four inter-segment displacements; in cyclic order around
   the quadrilateral spanned by the two segments they are
   `e0 = b0-a0, e1 = b1-a0, e2 = b1-a1, e3 = b0-a1`;
2. sign of the triple product of the two segment direction vectors against
   the first displacement;
3. cross products of cyclically adjacent normalized displacements,
   each normalized;
4. dot products of cyclically adjacent normalized cross products, clipped
   to `[-1, 1]`, `arcsin`, summed;
5. multiply by the sign and divide by `2 * pi`. -/
noncomputable def writheSpecContribution (s : SegPoints) : ℝ :=
  let e0 := nnorm (s.b0 - s.a0)
  let e1 := nnorm (s.b1 - s.a0)
  let e2 := nnorm (s.b1 - s.a1)
  let e3 := nnorm (s.b0 - s.a1)
  let sgn := Real.sign (ndot (ncross (s.b1 - s.b0) (s.a1 - s.a0)) e0)
  let n01 := nnorm (ncross e0 e1)
  let n12 := nnorm (ncross e1 e2)
  let n23 := nnorm (ncross e2 e3)
  let n30 := nnorm (ncross e3 e0)
  let solidAngle := Real.arcsin (clip (ndot n01 n12)) + Real.arcsin (clip (ndot n12 n23)) +
      Real.arcsin (clip (ndot n23 n30)) + Real.arcsin (clip (ndot n30 n01))
  sgn * solidAngle / (2 * Real.pi)

/-- The pre-squeeze `(Nframes, Nsegments)` writhe matrix computed by
`writhe_smat`. -/
noncomputable def writheSmatMat (smat : List (List SegPoints)) : List (List ℝ) :=
  smat.map (fun row => row.map writheSmatElem)

/-! ## Shape-carrying results: `torch.squeeze` and `torch.cat`

`writhe_smat` ends with `torch.squeeze(...)`, which removes every axis of
size 1, so the result of the pipeline is either a matrix, a vector or a
scalar.  `torch.cat(ts, -1)` concatenates along the last axis and requires
all operands to have the same number of dimensions. -/

inductive Tensor where
  | scalar : ℝ → Tensor
  | vec : List ℝ → Tensor
  | mat : List (List ℝ) → Tensor

/-- `torch.squeeze` on an `(N, P)` matrix: `(1, 1) ↦` scalar, `(1, P) ↦`
row vector, `(N, 1) ↦` column-collapsed vector, anything else unchanged. -/
noncomputable def squeezeMat : List (List ℝ) → Tensor
  | [] => Tensor.mat []
  | [[v]] => Tensor.scalar v
  | [row] => Tensor.vec row
  | m => if m.all (fun r => r.length == 1) then Tensor.vec (m.map (fun r => r.headD 0))
         else Tensor.mat m

/-- `writhe_smat` (writhe_utils.py lines 83-109): the per-element kernel
mapped over frames × pairs, followed by the final `torch.squeeze`. -/
noncomputable def writhe_smat (smat : List (List SegPoints)) : Tensor :=
  squeezeMat (writheSmatMat smat)

/-! ## The segment enumerator (`utils.py` / `writhe_utils.py`: `get_segments`)

Index arrays are modelled as lists of naturals; the `(n_pairs, 4)` output
array as a list of quadruplets `(start1, end1, start2, end2)`. -/

structure Quad where
  s1 : ℕ
  e1 : ℕ
  s2 : ℕ
  e2 : ℕ
  deriving DecidableEq, Repr

/-- `shifted_pairs(x, shift)` (utils.py lines 69-70):
`np.stack([x[:-shift], x[shift:]], 1)`, i.e. the rows `(x[i], x[i+shift])`
for `i < len(x) - shift` (for `shift ≥ 1`, where `x[:-shift]` is the first
`len(x) - shift` entries). -/
def shifted_pairs (x : List ℕ) (shift : ℕ) : List (ℕ × ℕ) :=
  List.zip (x.take (x.length - shift)) (x.drop shift)

/-- `combinations(x)` (utils.py lines 65-66): all ordered-position pairs
`(x[i], x[j])` with `i < j`, in `itertools.combinations` order. -/
def combinations {α : Type} : List α → List (α × α)
  | [] => []
  | a :: rest => rest.map (fun b => (a, b)) ++ combinations rest

/-- `product(x, y)` (utils.py lines 61-62): the full cross product in
`itertools.product` order (`for a in x: for b in y`). -/
def product {α β : Type} (x : List α) (y : List β) : List (α × β) :=
  x.flatMap (fun a => y.map (fun b => (a, b)))

/-- `.reshape(-1, 4)` applied to a pair of index pairs: flatten
`((s1, e1), (s2, e2))` to the quadruplet row `(s1, e1, s2, e2)`. -/
def quadOf (p : (ℕ × ℕ) × ℕ × ℕ) : Quad := ⟨p.1.1, p.1.2, p.2.1, p.2.2⟩

/-- Mode A / Mode B body of `get_segments`:
`segments = combinations(shifted_pairs(idx, length)).reshape(-1, 4)` then
`segments = segments[~(segments[:, 1] == segments[:, 2])]`. -/
def segmentsOfIndex (idx : List ℕ) (length : ℕ) : List Quad :=
  ((combinations (shifted_pairs idx length)).map quadOf).filter
    (fun q => ¬ q.e1 = q.s2)

/-- Mode A of `get_segments`: the single implicit index range
`np.arange(n)`. -/
def getSegmentsModeA (n length : ℕ) : List Quad :=
  segmentsOfIndex (List.range n) length

/-- Mode C body of `get_segments`:
`product(shifted_pairs(index0, length), shifted_pairs(index1, length)).reshape(-1, 4)`,
with no overlap filtering. -/
def getSegmentsModeC (index0 index1 : List ℕ) (length : ℕ) : List Quad :=
  (product (shifted_pairs index0 length) (shifted_pairs index1 length)).map quadOf

/-- `get_segments` (writhe_utils.py lines 21-47).  Only the two `assert`
failures (InvalidArgument conditions) are modelled as errors; the `tensor`
flag only changes the container type and is dropped. -/
def get_segments (n : Option ℕ) (length : ℕ)
    (index0 index1 : Option (List ℕ)) : Except String (List Quad) :=
  match index0, index1 with
  | none, none =>
    match n with
    | none => Except.error "Must provide indices or the number of points"
    | some np => Except.ok (getSegmentsModeA np length)
  | none, some _ =>
    Except.error "If providing only one set of indices, must set the index0 argument"
  | some i0, some i1 => Except.ok (getSegmentsModeC i0 i1 length)
  | some i0, none => Except.ok (segmentsOfIndex i0 length)

def isError {ε α : Type} : Except ε α → Bool
  | Except.error _ => true
  | Except.ok _ => false

/-! ## Memory cost model and batch planner

The Python code computes with 64-bit floats; it is modelled here with
exact rational arithmetic on the same decimal constants.  The live CUDA
memory query is modelled by an explicit environment: a flag
`cuda : Bool` (`torch.cuda.is_available()`) and a function
`freeMem : ℕ → ℚ` giving the free VRAM of each device id in GB
(`(total_memory(device) - memory_allocated(device)) / 1024 ** 3`). -/

def memC1 : ℚ := 201708461 / 10 ^ 15

def memC2 : ℚ := 593515514 / 10 ^ 16

/-- `peak_mem_writhe` (writhe_utils.py lines 112-121):
`(n_segments * 2.01708461e-07 + 5.93515514e-08) * n_samples`. -/
def peak_mem_writhe (n_segments n_samples : ℚ) : ℚ :=
  (n_segments * memC1 + memC2) * n_samples

/-- Python `int()` applied to a (real) number: truncation toward zero. -/
def pytrunc (q : ℚ) : ℤ := if q < 0 then -⌊-q⌋ else ⌊q⌋

/-- `get_available_memory` (writhe_utils.py lines 124-130):
`assert torch.cuda.is_available()`, then the free VRAM of `device` in GB. -/
def get_available_memory (cuda : Bool) (freeMem : ℕ → ℚ) (device : ℕ) :
    Except String ℚ :=
  if cuda then Except.ok (freeMem device) else Except.error "CUDA is not available"

/-- `get_segment_batch_size` (writhe_utils.py lines 133-136):
`mem = get_available_memory() - 2` — note the call leaves `device` at its
default `0` — then `int(((mem / n_samples) - 5.93515514e-08) / 2.01708461e-07)`. -/
def get_segment_batch_size (cuda : Bool) (freeMem : ℕ → ℚ) (n_samples : ℚ)
    (device : ℕ) : Except String ℤ :=
  (get_available_memory cuda freeMem 0).map (fun avail =>
    pytrunc (((avail - 2) / n_samples - memC2) / memC1))

/-! ## The dispatch pipeline -/

/-- `xyz[:, segments]`: the `(4, 3)` slice of one frame at one quadruplet
row.  In-range indices are assumed (torch raises on out-of-range gather;
the claims below never index out of range). -/
noncomputable def segPointsOf (frame : List Vec3) (q : Quad) : SegPoints :=
  ⟨frame.getD q.s1 default, frame.getD q.e1 default,
   frame.getD q.s2 default, frame.getD q.e2 default⟩

/-- `writhe_segments_cuda` (writhe_utils.py lines 139-144): slice the
coordinate tensor with the segment array and run `writhe_smat`
(the `unsqueeze` normalizations and the device transfer/cache flush carry
no value content in this model). -/
noncomputable def writhe_segments_cuda (segments : List Quad)
    (xyz : List (List Vec3)) (device : ℕ) : Tensor :=
  writhe_smat (xyz.map (fun frame => segments.map (fun q => segPointsOf frame q)))

/-- Binary step of `torch.cat(ts, -1)`: concatenation along the last axis
requires operands of the same number of dimensions (and, for matrices,
the same leading dimension). -/
noncomputable def cat2 : Tensor → Tensor → Except String Tensor
  | Tensor.vec a, Tensor.vec b => Except.ok (Tensor.vec (a ++ b))
  | Tensor.mat a, Tensor.mat b =>
    if a.length = b.length then Except.ok (Tensor.mat (List.zipWith (· ++ ·) a b))
    else Except.error "Sizes of tensors must match except in dimension"
  | _, _ => Except.error "Tensors must have same number of dimensions"

/-- `torch.cat(ts, -1)`: n-ary concatenation along the last axis, realized
as right-nested binary concatenation; errors on an empty operand list. -/
noncomputable def catLast : List Tensor → Except String Tensor
  | [] => Except.error "expected a non-empty list of Tensors"
  | [t] => Except.ok t
  | t :: ts => (catLast ts).bind (fun rest => cat2 t rest)

/-- `writhe_segments_minibatches` (writhe_utils.py lines 147-149):
`torch.cat([writhe_segments_cuda(segments=i, xyz=xyz, device=device) for i in segment_chunks], -1)`. -/
noncomputable def writhe_segments_minibatches (segment_chunks : List (List Quad))
    (xyz : List (List Vec3)) (device : ℕ) : Except String Tensor :=
  catLast (segment_chunks.map (fun segs => writhe_segments_cuda segs xyz device))

/-- The chunk list produced by a successful `torch.split`: successive
slices of `split_size` elements, the last possibly shorter. -/
def chunkList {α : Type} (l : List α) (split_size : ℕ) : List (List α) :=
  (List.range ((l.length + split_size - 1) / split_size)).map
    (fun i => ((l.drop (i * split_size)).take split_size))

/-- `torch.split(segments, batch_size)` along dim 0:
raises for a negative `split_size`; raises for `split_size = 0` unless the
dimension size is also 0, in which case there is one (empty) split. -/
def torch_split {α : Type} (l : List α) (split_size : ℤ) :
    Except String (List (List α)) :=
  if split_size < 0 then Except.error "split expects split_size be non-negative"
  else if split_size = 0 then
    (if l.length = 0 then Except.ok [[]]
     else Except.error "split_size can only be 0 if dimension size is also 0")
  else Except.ok (chunkList l split_size.toNat)

/-- `split_list(lst, n)` (utils.py lines 13-22): `k, m = divmod(len(lst), n)`
with the original `n`; then `n` is clamped to `len(lst)` and the slices
`lst[i*k + min(i, m) : (i+1)*k + min(i+1, m)]` are taken for `i in range(n)`. -/
def split_list {α : Type} (lst : List α) (n : ℕ) : List (List α) :=
  let k := lst.length / n
  let m := lst.length % n
  let nn := if lst.length < n then lst.length else n
  (List.range nn).map (fun i =>
    ((lst.drop (i * k + min i m)).take ((i + 1) * k + min (i + 1) m - (i * k + min i m))))

/-- `calc_writhe_parallel_cuda` (writhe_utils.py lines 152-170).
`batch_size = get_segment_batch_size(len(xyz)) - reduce_batch_size`; if the
whole set fits in one batch run the kernel once; otherwise chunk with
`torch.split` and either run the minibatches sequentially on device 0
(small work or a single device) or split the chunk list across
`deviceCount` ray workers and concatenate the worker results in device
assignment order.  The kernel math is device-independent, so the ray
dispatch is modelled by the same per-chunk computation. -/
noncomputable def calc_writhe_parallel_cuda (cuda : Bool) (freeMem : ℕ → ℚ)
    (deviceCount : ℕ) (segments : List Quad) (xyz : List (List Vec3))
    (reduce_batch_size : ℤ) : Except String Tensor :=
  (get_segment_batch_size cuda freeMem (xyz.length : ℚ) 0).bind (fun b =>
    let batch_size : ℤ := b - reduce_batch_size
    if (segments.length : ℤ) < batch_size then
      Except.ok (writhe_segments_cuda segments xyz 0)
    else
      (torch_split segments batch_size).bind (fun chunks =>
        if (segments.length : ℤ) < 5 * batch_size ∨ deviceCount = 1 then
          writhe_segments_minibatches chunks xyz 0
        else
          ((split_list chunks deviceCount).mapM
            (fun j => writhe_segments_minibatches j xyz 0)).bind catLast))

/-- Arithmetic-progression segment list: the segments
`(a, a+L), (a+1, a+1+L), ..., (a+m-1, a+m-1+L)`. -/
def apSegs (L : ℕ) : ℕ → ℕ → List (ℕ × ℕ)
  | _, 0 => []
  | a, m + 1 => (a, a + L) :: apSegs L (a + 1) m

/-- The pre-squeeze writhe matrix of `writhe_segments_cuda`: one row per
frame, one column per segment pair. -/
noncomputable def cudaMat (segments : List Quad) (xyz : List (List Vec3)) :
    List (List ℝ) :=
  xyz.map (fun frame => segments.map (fun q => writheSmatElem (segPointsOf frame q)))

/-- A sample frame with four points, used as concrete input below. -/
noncomputable def exFrame0 : List Vec3 := [⟨0, 0, 0⟩, ⟨1, 0, 0⟩, ⟨1, 1, 0⟩, ⟨0, 1, 1⟩]

/-- A second sample frame with four points, used as concrete input below. -/
noncomputable def exFrame1 : List Vec3 := [⟨0, 0, 1⟩, ⟨2, 0, 0⟩, ⟨1, 2, 0⟩, ⟨0, 1, 2⟩]

/-! ## Claim C1 -/

theorem writheSmatElem_eq_spec (s : SegPoints) :
    writheSmatElem s = writheSpecContribution s := by
  simp only [writheSmatElem, writheSpecContribution]
  ring

/-- C1: for every chunk of segment-pair quadruplets and every coordinate
tensor, the geometric kernel `writhe_smat` returns, per sample and per
pair, exactly the value of the reference five-step formula
`writheSpecContribution` (normalize the four inter-segment displacements,
sign of the triple product, normalized cross products of cyclically
adjacent displacements, clipped arcsin of dots of cyclically adjacent
cross products summed, times the sign over `2π`). -/
theorem writhe_smat_matches_spec_formula (smat : List (List SegPoints)) :
    writheSmatMat smat = smat.map (fun row => row.map writheSpecContribution) := by
  simp only [writheSmatMat]
  exact List.map_congr_left (fun row _ =>
    List.map_congr_left (fun s _ => writheSmatElem_eq_spec s))

/-! ## Enumerator lemmas -/

lemma shifted_pairs_range (n L : ℕ) :
    shifted_pairs (List.range n) L = (List.range (n - L)).map (fun i => (i, i + L)) := by
  apply List.ext_getElem
  · simp [shifted_pairs]
  · intro i h1 h2
    simp only [shifted_pairs, List.length_range] at h1 ⊢
    simp only [List.getElem_zip, List.getElem_map, List.getElem_range]
    rw [List.getElem_take, List.getElem_drop]
    simp only [List.getElem_range, Nat.add_comm]

lemma length_shifted_pairs (x : List ℕ) (s : ℕ) :
    (shifted_pairs x s).length = x.length - s := by
  simp only [shifted_pairs, List.length_zip, List.length_take, List.length_drop]
  omega

lemma mem_combinations {α : Type} {p : α × α} :
    ∀ {l : List α}, p ∈ combinations l → p.1 ∈ l ∧ p.2 ∈ l := by
  intro l
  induction l with
  | nil => simp [combinations]
  | cons a rest ih =>
    intro hp
    simp only [combinations, List.mem_append, List.mem_map] at hp
    rcases hp with ⟨b, hb, hba⟩ | hp
    · subst hba
      exact ⟨List.mem_cons_self a rest, List.mem_cons_of_mem a hb⟩
    · exact ⟨List.mem_cons_of_mem a (ih hp).1, List.mem_cons_of_mem a (ih hp).2⟩

lemma length_combinations {α : Type} :
    ∀ (l : List α), (combinations l).length = Nat.choose l.length 2 := by
  intro l
  induction l with
  | nil => simp [combinations]
  | cons a rest ih =>
    simp only [combinations, List.length_append, List.length_map, ih, List.length_cons]
    rw [Nat.choose_succ_succ, Nat.choose_one_right]

lemma choose_two_ge (m : ℕ) : m - 1 ≤ Nat.choose m 2 := by
  cases m with
  | zero => simp
  | succ k =>
    rw [Nat.choose_succ_succ, Nat.choose_one_right]
    omega

lemma length_filter_range_ne (k : ℕ) :
    ∀ m, ((List.range m).filter (fun i => ¬ i = k)).length =
      m - (if k < m then 1 else 0) := by
  intro m
  induction m with
  | zero => simp
  | succ m ih =>
    rw [List.range_succ, List.filter_append, List.length_append, ih]
    by_cases h : m = k
    · subst h
      simp
    · have hk : (List.filter (fun i => decide ¬ i = k) [m]).length = 1 := by
        simp [List.filter, h]
      rw [hk]
      by_cases h2 : k < m
      · have : k < m + 1 := by omega
        simp only [h2, if_true, this]
        omega
      · have : ¬ k < m + 1 := by omega
        simp only [h2, if_false, this]
        omega

lemma map_range_eq_apSegs (L : ℕ) :
    ∀ m a, (List.range m).map (fun i => (a + i, a + i + L)) = apSegs L a m := by
  intro m
  induction m with
  | zero => intro a; simp [apSegs]
  | succ m ih =>
    intro a
    rw [List.range_succ_eq_map, List.map_cons, List.map_map]
    have hcomp : ((fun i => (a + i, a + i + L)) ∘ Nat.succ) =
        (fun i => (a + 1 + i, a + 1 + i + L)) := by
      funext i
      simp only [Function.comp_apply, Prod.mk.injEq]
      omega
    rw [hcomp, ih (a + 1)]
    simp [apSegs]

lemma apSegs_filter_length (L : ℕ) (hL : 1 ≤ L) :
    ∀ m a, (((combinations (apSegs L a m)).map quadOf).filter
        (fun q => ¬ q.e1 = q.s2)).length = Nat.choose m 2 - (m - L) := by
  intro m
  induction m with
  | zero => intro a; simp [apSegs, combinations]
  | succ m ih =>
    intro a
    have hsplit : combinations (apSegs L a (m + 1)) =
        (apSegs L (a + 1) m).map (fun b => ((a, a + L), b)) ++
          combinations (apSegs L (a + 1) m) := rfl
    rw [hsplit, List.map_append, List.filter_append, List.length_append, List.map_map]
    have hA : (((apSegs L (a + 1) m).map (quadOf ∘ fun b => ((a, a + L), b))).filter
        (fun q => ¬ q.e1 = q.s2)).length = m - (if L - 1 < m then 1 else 0) := by
      rw [← map_range_eq_apSegs, List.map_map, List.filter_map, List.length_map]
      have hfun : ((fun q => decide ¬ q.e1 = q.s2) ∘
          ((quadOf ∘ fun b => ((a, a + L), b)) ∘ fun i => (a + 1 + i, a + 1 + i + L))) =
          (fun i => decide ¬ i = L - 1) := by
        funext i
        simp only [Function.comp_apply, quadOf, decide_eq_decide]
        omega
      rw [hfun, length_filter_range_ne]
    rw [hA, ih (a + 1)]
    have hc := choose_two_ge m
    have hcc : Nat.choose (m + 1) 2 = m + Nat.choose m 2 := by
      simp [Nat.choose_succ_succ, Nat.choose_one_right]
    rw [hcc]
    by_cases hLm : L - 1 < m <;> simp only [hLm, if_true, if_false] <;> omega

lemma getSegmentsModeA_length (n L : ℕ) (hL : 1 ≤ L) :
    (getSegmentsModeA n L).length = Nat.choose (n - L) 2 - (n - 2 * L) := by
  unfold getSegmentsModeA segmentsOfIndex
  rw [shifted_pairs_range]
  have h0 : (List.range (n - L)).map (fun i => (i, i + L)) =
      (List.range (n - L)).map (fun i => (0 + i, 0 + i + L)) := by
    apply List.map_congr_left
    intro i _
    simp
  rw [h0, map_range_eq_apSegs, apSegs_filter_length L hL (n - L) 0]
  have h2 : n - L - L = n - 2 * L := by omega
  rw [h2]

lemma sum_map_const {α : Type} (l : List α) (c : ℕ) :
    (l.map (fun _ => c)).sum = l.length * c := by
  induction l with
  | nil => simp
  | cons a rest ih =>
    simp only [List.map_cons, List.sum_cons, ih, List.length_cons]
    ring

lemma getSegmentsModeC_length (i0 i1 : List ℕ) (L : ℕ) :
    (getSegmentsModeC i0 i1 L).length = (i0.length - L) * (i1.length - L) := by
  unfold getSegmentsModeC product
  rw [List.length_map, List.length_flatMap]
  simp only [Function.comp_def]
  have h1 : ((shifted_pairs i0 L).map fun a => ((shifted_pairs i1 L).map fun b => (a, b)).length)
      = (shifted_pairs i0 L).map (fun _ => i1.length - L) := by
    apply List.map_congr_left
    intro p _
    rw [List.length_map, length_shifted_pairs]
  rw [h1, sum_map_const, length_shifted_pairs]

/-! ## Claim C3 -/

/-- C3: for every point count `n` and segment length `L` with `n > L`
(and `L ≥ 1`, a segment length), every quadruplet returned by the
enumerator in Mode A (`get_segments` with only `n` and `length`) has
`end1 ≠ start2` and both segment extents equal to `L`. -/
theorem getSegmentsModeA_no_adjacent_and_length (n L : ℕ) (hL : 1 ≤ L) (hn : L < n) :
    ∀ q ∈ getSegmentsModeA n L, q.e1 ≠ q.s2 ∧ q.e1 - q.s1 = L ∧ q.e2 - q.s2 = L := by
  intro q hq
  unfold getSegmentsModeA segmentsOfIndex at hq
  have hfil := List.of_mem_filter hq
  have hmem := List.mem_of_mem_filter hq
  rcases List.mem_map.mp hmem with ⟨p, hp, hpq⟩
  have hm := mem_combinations hp
  rw [shifted_pairs_range] at hm
  rcases List.mem_map.mp hm.1 with ⟨i, _, hi⟩
  rcases List.mem_map.mp hm.2 with ⟨j, _, hj⟩
  refine ⟨?_, ?_, ?_⟩
  · intro hcontra
    rw [← hpq] at hfil
    simp only [quadOf, decide_not] at hfil
    rw [← hpq] at hcontra
    simp only [quadOf] at hcontra
    simp [hcontra] at hfil
  · rw [← hpq]
    simp only [quadOf, ← hi]
    omega
  · rw [← hpq]
    simp only [quadOf, ← hj]
    omega

/-- Witness for C3 at `n = 4`, `L = 1`: the single surviving quadruplet is
`(0, 1, 2, 3)`. -/
theorem getSegmentsModeA_no_adjacent_and_length_witness :
    (Quad.mk 0 1 2 3).e1 ≠ (Quad.mk 0 1 2 3).s2 ∧
      (Quad.mk 0 1 2 3).e1 - (Quad.mk 0 1 2 3).s1 = 1 ∧
      (Quad.mk 0 1 2 3).e2 - (Quad.mk 0 1 2 3).s2 = 1 :=
  getSegmentsModeA_no_adjacent_and_length 4 1 (by decide) (by decide)
    (Quad.mk 0 1 2 3) (by decide)

/-! ## Claim C6 -/

/-- C6: the enumerator output length equals the closed-form combinatorial
count.  Mode A with point count `n` and length `L` returns
`C(n-L, 2) - max(0, n-2L)` quadruplets (all 2-combinations of the `n-L`
segments minus the exactly-adjacent pairs; over `ℕ` the truncated
subtraction `n - 2*L` is `max(0, n-2L)`); Mode C with explicit index
arrays returns the literal full cross product — no overlap filtering — of
`(len(index0)-L) * (len(index1)-L)` quadruplets. -/
theorem get_segments_counts (n L : ℕ) (i0 i1 : List ℕ) (hL : 1 ≤ L) :
    (getSegmentsModeA n L).length = Nat.choose (n - L) 2 - (n - 2 * L) ∧
      getSegmentsModeC i0 i1 L =
        (product (shifted_pairs i0 L) (shifted_pairs i1 L)).map quadOf ∧
      (getSegmentsModeC i0 i1 L).length = (i0.length - L) * (i1.length - L) :=
  ⟨getSegmentsModeA_length n L hL, rfl, getSegmentsModeC_length i0 i1 L⟩

/-- Witness for C6 at `n = 5`, `L = 1`, `index0 = [0,1,2]`, `index1 = [7,8,9]`:
Mode A yields `C(4,2) - 3 = 3` pairs, Mode C yields `2 * 2 = 4` pairs. -/
theorem get_segments_counts_witness :
    (getSegmentsModeA 5 1).length = Nat.choose (5 - 1) 2 - (5 - 2 * 1) ∧
      getSegmentsModeC [0, 1, 2] [7, 8, 9] 1 =
        (product (shifted_pairs [0, 1, 2] 1) (shifted_pairs [7, 8, 9] 1)).map quadOf ∧
      (getSegmentsModeC [0, 1, 2] [7, 8, 9] 1).length =
        ([0, 1, 2].length - 1) * ([7, 8, 9].length - 1) :=
  get_segments_counts 5 1 [0, 1, 2] [7, 8, 9] (by decide)

/-! ## Claim C7 -/

/-- C7: `get_segments` fails with its InvalidArgument assertion exactly in
the two malformed cases — `index1` supplied without `index0`, or neither a
point count `n` nor any index array supplied; every other input
configuration passes the asserts. -/
theorem get_segments_error_iff (n : Option ℕ) (length : ℕ)
    (index0 index1 : Option (List ℕ)) :
    isError (get_segments n length index0 index1) = true ↔
      (index0 = none ∧ index1 ≠ none) ∨
        (n = none ∧ index0 = none ∧ index1 = none) := by
  cases index0 <;> cases index1 <;> cases n <;> simp [get_segments, isError]

/-! ## Claim C8 -/

/-- C8: invoking `calc_writhe_parallel_cuda` with no accelerator available
(`torch.cuda.is_available()` false) fails at call time with the
`get_available_memory` assertion, before any chunking, dispatch or kernel
execution, for every memory state, device count, input and batch
reduction — there is no CPU fallback. -/
theorem calc_writhe_parallel_cuda_fails_without_device (freeMem : ℕ → ℚ)
    (deviceCount : ℕ) (segments : List Quad) (xyz : List (List Vec3))
    (reduce_batch_size : ℤ) :
    calc_writhe_parallel_cuda false freeMem deviceCount segments xyz reduce_batch_size =
      Except.error "CUDA is not available" := rfl

/-! ## Claim C9 -/

/-- C9: `get_segment_batch_size` returns the same batch size for every
device id — the device argument is never forwarded to the memory query,
which always reads device 0. -/
theorem get_segment_batch_size_ignores_device (cuda : Bool) (freeMem : ℕ → ℚ)
    (n_samples : ℚ) (d1 d2 : ℕ) :
    get_segment_batch_size cuda freeMem n_samples d1 =
      get_segment_batch_size cuda freeMem n_samples d2 := rfl

/-! ## Claim C4 -/

lemma batch_size_eval (freeMem : ℕ → ℚ) (n : ℚ) (d : ℕ) :
    get_segment_batch_size true freeMem n d =
      Except.ok (pytrunc (((freeMem 0 - 2) / n - memC2) / memC1)) := rfl

lemma pytrunc_of_nonneg {q : ℚ} (h : 0 ≤ q) : pytrunc q = ⌊q⌋ := by
  unfold pytrunc
  rw [if_neg (not_lt.mpr h)]

/-- C4 counterexample: at `n_samples = 1` and available memory `m = 2` GB
(budget `m - 2 = 0`), the planner returns batch size `0` (Python `int()`
truncates the negative ratio toward zero), yet
`peak_mem_writhe(0, 1) = c2 > 0` already exceeds the budget, so the first
half of the tightness property fails. -/
theorem get_segment_batch_size_not_tight :
    get_segment_batch_size true (fun _ => 2) 1 0 = Except.ok 0 ∧
      ¬ peak_mem_writhe ((0 : ℤ) : ℚ) 1 ≤ (2 : ℚ) - 2 := by
  constructor
  · rw [batch_size_eval]
    norm_num [pytrunc, memC1, memC2]
  · norm_num [peak_mem_writhe, memC1, memC2]

/-- C4 (amended): for every positive sample count and every available
memory `m` whose budget `m - 2` covers at least the sample-proportional
base cost `c2 * n_samples` (without this the planner's ratio is negative
and `int()` truncation toward zero returns a batch size whose predicted
peak memory already exceeds the budget — see the counterexample), the
batch size `b` returned by `get_segment_batch_size` is tight for the
linear cost model: `peak_mem_writhe(b, n_samples) ≤ m - 2 <
peak_mem_writhe(b+1, n_samples)`. -/
theorem get_segment_batch_size_tight (freeMem : ℕ → ℚ) (n_samples : ℚ) (b : ℤ)
    (hn : 0 < n_samples) (hbud : memC2 * n_samples ≤ freeMem 0 - 2)
    (hb : get_segment_batch_size true freeMem n_samples 0 = Except.ok b) :
    peak_mem_writhe (b : ℚ) n_samples ≤ freeMem 0 - 2 ∧
      freeMem 0 - 2 < peak_mem_writhe ((b : ℚ) + 1) n_samples := by
  rw [batch_size_eval] at hb
  have hb2 : pytrunc (((freeMem 0 - 2) / n_samples - memC2) / memC1) = b :=
    Except.ok.inj hb
  set m : ℚ := freeMem 0 - 2 with hm
  set t : ℚ := (m / n_samples - memC2) / memC1 with htdef
  have hc1 : (0 : ℚ) < memC1 := by norm_num [memC1]
  have hnum : 0 ≤ m / n_samples - memC2 := by
    have : memC2 ≤ m / n_samples := (le_div_iff₀ hn).mpr hbud
    linarith
  have ht : 0 ≤ t := div_nonneg hnum hc1.le
  have hbf : b = ⌊t⌋ := by rw [← hb2, pytrunc_of_nonneg ht]
  have hfl : (b : ℚ) ≤ t := by
    rw [hbf]
    exact Int.floor_le t
  have hfu : t < (b : ℚ) + 1 := by
    rw [hbf]
    exact_mod_cast Int.lt_floor_add_one t
  have htm : t * memC1 = m / n_samples - memC2 := div_mul_cancel₀ _ hc1.ne'
  constructor
  · have h1 : (b : ℚ) * memC1 ≤ m / n_samples - memC2 := by
      calc (b : ℚ) * memC1 ≤ t * memC1 := by
            exact mul_le_mul_of_nonneg_right hfl hc1.le
        _ = m / n_samples - memC2 := htm
    have h2 : (b : ℚ) * memC1 + memC2 ≤ m / n_samples := by linarith
    have h3 : ((b : ℚ) * memC1 + memC2) * n_samples ≤ m / n_samples * n_samples :=
      mul_le_mul_of_nonneg_right h2 hn.le
    rw [div_mul_cancel₀ _ hn.ne'] at h3
    simpa [peak_mem_writhe] using h3
  · have h1 : m / n_samples - memC2 < ((b : ℚ) + 1) * memC1 := by
      calc m / n_samples - memC2 = t * memC1 := htm.symm
        _ < ((b : ℚ) + 1) * memC1 := by
            exact mul_lt_mul_of_pos_right hfu hc1
    have h2 : m / n_samples < ((b : ℚ) + 1) * memC1 + memC2 := by linarith
    have h3 : m < (((b : ℚ) + 1) * memC1 + memC2) * n_samples :=
      (div_lt_iff₀ hn).mp h2
    simpa [peak_mem_writhe] using h3

/-- Witness for the amended C4 at `n_samples = 1` and
`m = 2 + c2 + 10*c1`: the planner returns `b = 10` and both tightness
inequalities hold. -/
theorem get_segment_batch_size_tight_witness :
    peak_mem_writhe ((10 : ℤ) : ℚ) 1 ≤ (2 + memC2 + 10 * memC1) - 2 ∧
      (2 + memC2 + 10 * memC1) - 2 < peak_mem_writhe (((10 : ℤ) : ℚ) + 1) 1 := by
  have h := get_segment_batch_size_tight (fun _ => 2 + memC2 + 10 * memC1) 1 10
    (by norm_num) (by norm_num [memC1, memC2])
    (by rw [batch_size_eval]; norm_num [pytrunc, memC1, memC2])
  simpa using h

/-! ## Claim C5 -/

lemma torch_split_error {α : Type} (l : List α) (s : ℤ) (hs : s ≤ 0) (hl : l ≠ []) :
    ∃ e, torch_split l s = Except.error e := by
  unfold torch_split
  rcases lt_or_eq_of_le hs with h | h
  · rw [if_pos h]
    exact ⟨_, rfl⟩
  · rw [if_neg (by omega), if_pos h,
      if_neg (by have := List.length_pos.mpr hl; omega)]
    exact ⟨_, rfl⟩

/-- C5: whenever the computed maximum batch size is `≤ 0` (memory budget
exhausted) and there is a segment-pair set to chunk,
`calc_writhe_parallel_cuda` raises (`torch.split` rejects a non-positive
split size) before any chunk is formed or dispatched, instead of
proceeding with an empty or incorrect chunking. -/
theorem calc_writhe_parallel_cuda_reports_exhaustion (cuda : Bool)
    (freeMem : ℕ → ℚ) (deviceCount : ℕ) (segments : List Quad)
    (xyz : List (List Vec3)) (reduce_batch_size : ℤ) (b : ℤ)
    (hb : get_segment_batch_size cuda freeMem (xyz.length : ℚ) 0 = Except.ok b)
    (hbs : b - reduce_batch_size ≤ 0) (hseg : segments ≠ []) :
    ∃ e, calc_writhe_parallel_cuda cuda freeMem deviceCount segments xyz
      reduce_batch_size = Except.error e := by
  unfold calc_writhe_parallel_cuda
  rw [hb]
  have hlen : 0 < segments.length := List.length_pos.mpr hseg
  simp only [Except.bind]
  rw [if_neg (by omega)]
  obtain ⟨e, he⟩ := torch_split_error segments (b - reduce_batch_size) hbs hseg
  rw [he]
  exact ⟨e, rfl⟩

/-- Witness for C5: one segment pair, one (empty-chain) sample, 2 GB free
memory — the planner computes batch size 0 and the invocation errors
before dispatch. -/
theorem calc_writhe_parallel_cuda_reports_exhaustion_witness :
    ∃ e, calc_writhe_parallel_cuda true (fun _ => 2) 1 [Quad.mk 0 1 2 3] [[]] 0 =
      Except.error e :=
  calc_writhe_parallel_cuda_reports_exhaustion true (fun _ => 2) 1
    [Quad.mk 0 1 2 3] [[]] 0 0
    (by rw [batch_size_eval]; norm_num [pytrunc, memC1, memC2])
    (by norm_num) (by simp)

/-! ## Shape lemmas for `squeeze` and `cat` -/

lemma writhe_segments_cuda_eq (segments : List Quad) (xyz : List (List Vec3))
    (d : ℕ) :
    writhe_segments_cuda segments xyz d = squeezeMat (cudaMat segments xyz) := by
  unfold writhe_segments_cuda writhe_smat writheSmatMat cudaMat
  simp [List.map_map, Function.comp_def]

lemma squeezeMat_two_singleton_rows (a b : ℝ) (rest : List (List ℝ))
    (hrest : ∀ r ∈ rest, ∃ v, r = [v]) :
    squeezeMat ([a] :: [b] :: rest) =
      Tensor.vec (([a] :: [b] :: rest).map (fun r => r.headD 0)) := by
  have hall : (([a] :: [b] :: rest).all (fun r => r.length == 1)) = true := by
    simp only [List.all_cons, List.all_eq_true, Bool.and_eq_true, beq_iff_eq]
    refine ⟨by simp, by simp, ?_⟩
    intro r hr
    obtain ⟨v, hv⟩ := hrest r hr
    simp [hv]
  simp only [squeezeMat, hall, if_true]

lemma squeezeMat_single_long_row (a b : ℝ) (rest : List ℝ) :
    squeezeMat [a :: b :: rest] = Tensor.vec (a :: b :: rest) := rfl

lemma squeezeMat_eq_mat (r0 r1 : List ℝ) (rest : List (List ℝ))
    (h2 : ∃ r ∈ r0 :: r1 :: rest, 2 ≤ r.length) :
    squeezeMat (r0 :: r1 :: rest) = Tensor.mat (r0 :: r1 :: rest) := by
  have hall : ¬ ((r0 :: r1 :: rest).all (fun r => r.length == 1)) = true := by
    intro hcon
    rw [List.all_eq_true] at hcon
    obtain ⟨r, hr, hrlen⟩ := h2
    have := hcon r hr
    rw [beq_iff_eq] at this
    omega
  simp only [squeezeMat, hall, if_false]
  simp

lemma cudaMat_append (s t : List Quad) :
    ∀ xyz : List (List Vec3),
      cudaMat (s ++ t) xyz = List.zipWith (· ++ ·) (cudaMat s xyz) (cudaMat t xyz) := by
  intro xyz
  induction xyz with
  | nil => rfl
  | cons fr rest ih =>
    simp only [cudaMat, List.map_cons, List.zipWith_cons_cons, List.map_append]
    simp only [cudaMat, List.map_append] at ih
    rw [ih]

lemma cudaMat_length (s : List Quad) (xyz : List (List Vec3)) :
    (cudaMat s xyz).length = xyz.length := List.length_map xyz _

lemma cudaMat_mat (s : List Quad) (x0 x1 : List Vec3) (rest : List (List Vec3))
    (hs : 2 ≤ s.length) :
    squeezeMat (cudaMat s (x0 :: x1 :: rest)) =
      Tensor.mat (cudaMat s (x0 :: x1 :: rest)) := by
  match s, hs with
  | q0 :: q1 :: qrest, _ =>
    simp only [cudaMat, List.map_cons]
    exact squeezeMat_eq_mat _ _ _ ⟨_, List.mem_cons_self _ _, by simp⟩

lemma writhe_segments_cuda_single_pair (q : Quad) (x0 x1 : List Vec3)
    (rest : List (List Vec3)) (d : ℕ) :
    writhe_segments_cuda [q] (x0 :: x1 :: rest) d =
      Tensor.vec ((x0 :: x1 :: rest).map (fun fr => writheSmatElem (segPointsOf fr q))) := by
  rw [writhe_segments_cuda_eq]
  simp only [cudaMat, List.map_cons, List.map_nil]
  rw [squeezeMat_two_singleton_rows]
  · simp [List.map_map]
  · intro r hr
    rcases List.mem_map.mp hr with ⟨fr, _, hfr⟩
    exact ⟨_, hfr.symm⟩

lemma writhe_segments_cuda_single_frame (q0 q1 : Quad) (qrest : List Quad)
    (frame : List Vec3) (d : ℕ) :
    writhe_segments_cuda (q0 :: q1 :: qrest) [frame] d =
      Tensor.vec ((q0 :: q1 :: qrest).map (fun q => writheSmatElem (segPointsOf frame q))) := by
  rw [writhe_segments_cuda_eq]
  simp only [cudaMat, List.map_cons, List.map_nil]
  exact squeezeMat_single_long_row _ _ _

lemma catLast_two_vecs (a b : List ℝ) :
    catLast [Tensor.vec a, Tensor.vec b] = Except.ok (Tensor.vec (a ++ b)) := rfl

lemma catLast_cuda_chunks (x0 x1 : List Vec3) (rest : List (List Vec3)) (d : ℕ) :
    ∀ chunks : List (List Quad), chunks ≠ [] → (∀ ch ∈ chunks, 2 ≤ ch.length) →
      catLast (chunks.map (fun segs => writhe_segments_cuda segs (x0 :: x1 :: rest) d)) =
        Except.ok (Tensor.mat (cudaMat chunks.flatten (x0 :: x1 :: rest))) := by
  intro chunks
  induction chunks with
  | nil => intro h; exact absurd rfl h
  | cons c0 cs ih =>
    intro _ hlen
    cases cs with
    | nil =>
      simp only [List.map_cons, List.map_nil, catLast]
      rw [writhe_segments_cuda_eq, cudaMat_mat c0 x0 x1 rest (hlen c0 (by simp))]
      simp
    | cons c1 cs2 =>
      have ihh := ih (by simp) (fun ch hch => hlen ch (List.mem_cons_of_mem _ hch))
      simp only [List.map_cons] at ihh ⊢
      have hstep : catLast
          (writhe_segments_cuda c0 (x0 :: x1 :: rest) d ::
            writhe_segments_cuda c1 (x0 :: x1 :: rest) d ::
              cs2.map (fun segs => writhe_segments_cuda segs (x0 :: x1 :: rest) d)) =
          (catLast (writhe_segments_cuda c1 (x0 :: x1 :: rest) d ::
            cs2.map (fun segs => writhe_segments_cuda segs (x0 :: x1 :: rest) d))).bind
            (fun r => cat2 (writhe_segments_cuda c0 (x0 :: x1 :: rest) d) r) := rfl
      rw [hstep, ihh]
      simp only [Except.bind]
      rw [writhe_segments_cuda_eq, cudaMat_mat c0 x0 x1 rest (hlen c0 (by simp))]
      simp only [cat2, cudaMat_length, if_pos]
      have hM : cudaMat ((c0 :: c1 :: cs2).flatten) (x0 :: x1 :: rest) =
          List.zipWith (· ++ ·) (cudaMat c0 (x0 :: x1 :: rest))
            (cudaMat ((c1 :: cs2).flatten) (x0 :: x1 :: rest)) := by
        rw [List.flatten_cons, cudaMat_append]
      rw [hM]

/-! ## Claim C2 -/

/-- C2 counterexample: partition a two-pair segment set into two singleton
chunks over a two-sample tensor.  Each per-chunk kernel result has its
singleton pair axis squeezed away, so it is a 1-dimensional tensor of
length 2, and `torch.cat(..., -1)` concatenates the two of them along the
sample axis into a flat length-4 vector, not the 2×2 samples-by-pairs
matrix returned by the unpartitioned run. -/
theorem writhe_segments_minibatches_counterexample :
    writhe_segments_minibatches [[Quad.mk 0 1 2 3], [Quad.mk 0 2 1 3]]
        [exFrame0, exFrame1] 0 ≠
      Except.ok (writhe_segments_cuda [Quad.mk 0 1 2 3, Quad.mk 0 2 1 3]
        [exFrame0, exFrame1] 0) := by
  have h1 := writhe_segments_cuda_single_pair (Quad.mk 0 1 2 3) exFrame0 exFrame1 [] 0
  have h2 := writhe_segments_cuda_single_pair (Quad.mk 0 2 1 3) exFrame0 exFrame1 [] 0
  unfold writhe_segments_minibatches
  simp only [List.map_cons, List.map_nil, h1, h2, catLast_two_vecs]
  rw [writhe_segments_cuda_eq,
    cudaMat_mat [Quad.mk 0 1 2 3, Quad.mk 0 2 1 3] exFrame0 exFrame1 [] (by simp)]
  simp

lemma catLast_cuda_chunks_single_frame (frame : List Vec3) (d : ℕ) :
    ∀ chunks : List (List Quad), chunks ≠ [] → (∀ ch ∈ chunks, 2 ≤ ch.length) →
      catLast (chunks.map (fun segs => writhe_segments_cuda segs [frame] d)) =
        Except.ok (Tensor.vec (chunks.flatten.map
          (fun q => writheSmatElem (segPointsOf frame q)))) := by
  intro chunks
  induction chunks with
  | nil => intro h; exact absurd rfl h
  | cons c0 cs ih =>
    intro _ hlen
    have h0 : 2 ≤ c0.length := hlen c0 (by simp)
    cases cs with
    | nil =>
      match c0, h0 with
      | q0 :: q1 :: qrest, _ =>
        simp only [List.map_cons, List.map_nil, catLast]
        rw [writhe_segments_cuda_single_frame]
        simp
    | cons c1 cs2 =>
      have ihh := ih (by simp) (fun ch hch => hlen ch (List.mem_cons_of_mem _ hch))
      simp only [List.map_cons] at ihh ⊢
      have hstep : catLast
          (writhe_segments_cuda c0 [frame] d ::
            writhe_segments_cuda c1 [frame] d ::
              cs2.map (fun segs => writhe_segments_cuda segs [frame] d)) =
          (catLast (writhe_segments_cuda c1 [frame] d ::
            cs2.map (fun segs => writhe_segments_cuda segs [frame] d))).bind
            (fun r => cat2 (writhe_segments_cuda c0 [frame] d) r) := rfl
      rw [hstep, ihh]
      simp only [Except.bind]
      match c0, h0 with
      | q0 :: q1 :: qrest, _ =>
        rw [writhe_segments_cuda_single_frame]
        simp only [cat2]
        simp only [List.flatten_cons, List.map_append]

/-- C2 (amended): for every partition of the segment-pair set into ordered
contiguous chunks in which every chunk holds at least two quadruplets (so
the final `squeeze` of a per-chunk kernel call never drops the pair
axis), and every nonempty coordinate tensor, concatenating the per-chunk
kernel outputs along the pair axis in original pair order — as
`writhe_segments_minibatches` does — yields exactly the result of running
the kernel once on the whole unpartitioned set, so the final output order
equals the input segment-pair order.  This covers single-sample tensors,
where each chunk result and the unpartitioned result are all squeezed to
1-dimensional per-pair vectors and concatenation still reassembles the
whole.  (With a singleton chunk the squeeze drops the pair axis and the
concatenation is wrong: see the counterexample.  A zero-sample tensor
cannot reach the kernel at all: torch rejects `reshape(-1, P, 4, 3)` on
an empty tensor as ambiguous.) -/
theorem writhe_segments_minibatches_eq_unpartitioned (chunks : List (List Quad))
    (xyz : List (List Vec3)) (d : ℕ) (hx : xyz ≠ []) (hc : chunks ≠ [])
    (hlen : ∀ ch ∈ chunks, 2 ≤ ch.length) :
    writhe_segments_minibatches chunks xyz d =
      Except.ok (writhe_segments_cuda chunks.flatten xyz d) := by
  obtain ⟨c0, cs, hch⟩ := List.exists_cons_of_ne_nil hc
  have hflat : 2 ≤ chunks.flatten.length := by
    have h0 : 2 ≤ c0.length := hlen c0 (by rw [hch]; simp)
    rw [hch, List.flatten_cons, List.length_append]
    omega
  match xyz, hx with
  | [x0], _ =>
    unfold writhe_segments_minibatches
    rw [catLast_cuda_chunks_single_frame x0 d chunks hc hlen]
    match hfl : chunks.flatten, hflat with
    | q0 :: q1 :: qrest, _ =>
      rw [writhe_segments_cuda_single_frame]
  | x0 :: x1 :: rest, _ =>
    unfold writhe_segments_minibatches
    rw [catLast_cuda_chunks x0 x1 rest d chunks hc hlen]
    match hfl : chunks.flatten, hflat with
    | q0 :: q1 :: qrest, _ =>
      rw [writhe_segments_cuda_eq, cudaMat_mat (q0 :: q1 :: qrest) x0 x1 rest (by simp)]

/-- Witness for the amended C2: a four-pair set split into two two-pair
chunks over a two-sample tensor reassembles to the unpartitioned result. -/
theorem writhe_segments_minibatches_eq_unpartitioned_witness :
    writhe_segments_minibatches
        [[Quad.mk 0 1 2 3, Quad.mk 0 2 1 3], [Quad.mk 1 2 0 3, Quad.mk 0 3 1 2]]
        [exFrame0, exFrame1] 0 =
      Except.ok (writhe_segments_cuda
        ([[Quad.mk 0 1 2 3, Quad.mk 0 2 1 3],
          [Quad.mk 1 2 0 3, Quad.mk 0 3 1 2]] : List (List Quad)).flatten
        [exFrame0, exFrame1] 0) :=
  writhe_segments_minibatches_eq_unpartitioned
    [[Quad.mk 0 1 2 3, Quad.mk 0 2 1 3], [Quad.mk 1 2 0 3, Quad.mk 0 3 1 2]]
    [exFrame0, exFrame1] 0 (by simp) (by simp) (by decide)

/-! ## Claim C10 -/

/-- C10: the final `squeeze` of `writhe_smat` removes singleton axes from
the result of `writhe_segments_cuda`: a single segment pair (with at least
two samples) yields a 1-dimensional result of length `n_samples` instead
of an `(n_samples, 1)` matrix, and dually a single sample (with at least
two pairs) yields a 1-dimensional result of length `n_pairs` — deviating
from the samples-by-pairs matrix shape of multi-pair, multi-sample calls. -/
theorem writhe_segments_cuda_squeezes_singletons :
    (∀ (q : Quad) (xyz : List (List Vec3)) (d : ℕ), 2 ≤ xyz.length →
        writhe_segments_cuda [q] xyz d =
          Tensor.vec (xyz.map (fun fr => writheSmatElem (segPointsOf fr q)))) ∧
      (∀ (segments : List Quad) (frame : List Vec3) (d : ℕ), 2 ≤ segments.length →
        writhe_segments_cuda segments [frame] d =
          Tensor.vec (segments.map (fun q => writheSmatElem (segPointsOf frame q)))) := by
  constructor
  · intro q xyz d hx
    match xyz, hx with
    | x0 :: x1 :: rest, _ => exact writhe_segments_cuda_single_pair q x0 x1 rest d
  · intro segments frame d hs
    match segments, hs with
    | q0 :: q1 :: qrest, _ => exact writhe_segments_cuda_single_frame q0 q1 qrest frame d

/-- Witness for C10: one pair, two samples — the result is the squeezed
1-dimensional vector of the two per-sample contributions. -/
theorem writhe_segments_cuda_squeezes_singletons_witness :
    writhe_segments_cuda [Quad.mk 0 1 2 3] [exFrame0, exFrame1] 0 =
      Tensor.vec ([exFrame0, exFrame1].map
        (fun fr => writheSmatElem (segPointsOf fr (Quad.mk 0 1 2 3)))) :=
  writhe_segments_cuda_squeezes_singletons.1 (Quad.mk 0 1 2 3)
    [exFrame0, exFrame1] 0 (by simp)

end WritheTools
